import Mathlib

/-!
Verification of the mesh_auditor voxel-remesher core (src/mesh_auditor/src/main.rs)
against its natural-language specification.

The Rust code is shallowly embedded over exact rationals (ℚ): the `f32` values of
the source become rationals, `f32::MAX` becomes the exact rational value of the
largest finite binary32 float, and the `0.2` padding literal becomes `1/5`.
Flat coordinate buffers are `List ℚ`; out-of-range reads are modelled with
`List.getD` (and, for the STL writer whose chunk indexing can panic, with an
`Option` result).
-/

namespace MeshAuditor

/-- The largest finite IEEE-754 binary32 value (`f32::MAX`), exactly:
`(2 - 2⁻²³) · 2¹²⁷ = 2¹²⁸ - 2¹⁰⁴`. -/
def f32MAX : ℚ := 2 ^ 128 - 2 ^ 104

/-- The padding constant `0.2` of `get_bounds`, idealised as the exact rational. -/
def padding : ℚ := 1 / 5

/-- The voxel-grid field of the source: a borrowed flat coordinate buffer,
padded bounding-box corners and a cubic grid resolution
(struct `MeshDistanceField` in main.rs). -/
structure MeshDistanceField where
  positions : List ℚ
  min : ℚ × ℚ × ℚ
  max : ℚ × ℚ × ℚ
  resolution : ℕ

namespace MeshDistanceField

/-- Per-axis x step `(max.0 - min.0) / resolution` of `MeshDistanceField::z`. -/
def stepX (f : MeshDistanceField) : ℚ := (f.max.1 - f.min.1) / (f.resolution : ℚ)

/-- Per-axis y step of `MeshDistanceField::z`. -/
def stepY (f : MeshDistanceField) : ℚ := (f.max.2.1 - f.min.2.1) / (f.resolution : ℚ)

/-- Per-axis z step of `MeshDistanceField::z`. -/
def stepZ (f : MeshDistanceField) : ℚ := (f.max.2.2 - f.min.2.2) / (f.resolution : ℚ)

/-- World x coordinate `min.0 + x * step_x` of grid index `x`. -/
def worldX (f : MeshDistanceField) (x : ℕ) : ℚ := f.min.1 + (x : ℚ) * stepX f

/-- World y coordinate of grid index `y`. -/
def worldY (f : MeshDistanceField) (y : ℕ) : ℚ := f.min.2.1 + (y : ℚ) * stepY f

/-- World z coordinate of grid index `z`. -/
def worldZ (f : MeshDistanceField) (n : ℕ) : ℚ := f.min.2.2 + (n : ℚ) * stepZ f

/-- The indices visited by the subsampling loop
`for i in (0..self.positions.len()).step_by(30)`. -/
def sampleIndices (ps : List ℚ) : List ℕ :=
  (List.range ps.length).filter (fun i => i % 30 == 0)

/-- The squared distance computed in the loop body: reads the buffer at
`i`, `i+1`, `i+2` and sums the squared coordinate differences to the world
point. Out-of-range reads are modelled with default `0`. -/
def distSqAt (ps : List ℚ) (wx wy wz : ℚ) (i : ℕ) : ℚ :=
  (ps.getD i 0 - wx) ^ 2 + (ps.getD (i + 1) 0 - wy) ^ 2 + (ps.getD (i + 2) 0 - wz) ^ 2

/-- The running minimum of `MeshDistanceField::z`: starts at `f32::MAX` and is
replaced whenever a strictly smaller squared distance is found. -/
def minDistSq (ps : List ℚ) (wx wy wz : ℚ) : ℚ :=
  (sampleIndices ps).foldl
    (fun m i => if distSqAt ps wx wy wz i < m then distSqAt ps wx wy wz i else m) f32MAX

/-- The radius-of-influence threshold `(step_x * 3.0).powi(2)` of
`MeshDistanceField::z`. -/
def threshold (f : MeshDistanceField) : ℚ := (stepX f * 3) ^ 2

/-- The density evaluator `MeshDistanceField::z`: maps the grid index to world
coordinates, takes the minimum squared distance to the stride-30 subsample of
the buffer, and returns `1.0` below the threshold, else `0.0`. -/
def z (f : MeshDistanceField) (x y n : ℕ) : ℚ :=
  if minDistSq f.positions (worldX f x) (worldY f y) (worldZ f n) < threshold f then 1 else 0

end MeshDistanceField

/-- The fold of `get_bounds` over the buffer in chunks of three scalars,
carrying the running `min` and `max` corners. A trailing chunk of fewer than
three scalars is skipped, exactly as the `if let [x, y, z] = chunk` of the
source skips it. -/
def foldBounds : List ℚ → (ℚ × ℚ × ℚ) → (ℚ × ℚ × ℚ) → ((ℚ × ℚ × ℚ) × (ℚ × ℚ × ℚ))
  | px :: py :: pz :: rest, mn, mx =>
      foldBounds rest
        (if px < mn.1 then px else mn.1,
         if py < mn.2.1 then py else mn.2.1,
         if pz < mn.2.2 then pz else mn.2.2)
        (if px > mx.1 then px else mx.1,
         if py > mx.2.1 then py else mx.2.1,
         if pz > mx.2.2 then pz else mx.2.2)
  | _, mn, mx => (mn, mx)

/-- `get_bounds`: scans the buffer starting from `(f32::MAX, …)` / `(f32::MIN, …)`
and pads both corners outward by `0.2`. -/
def get_bounds (ps : List ℚ) : (ℚ × ℚ × ℚ) × (ℚ × ℚ × ℚ) :=
  let r := foldBounds ps (f32MAX, f32MAX, f32MAX) (-f32MAX, -f32MAX, -f32MAX)
  ((r.1.1 - padding, r.1.2.1 - padding, r.1.2.2 - padding),
   (r.2.1 + padding, r.2.2.1 + padding, r.2.2.2 + padding))

/-- One line of the ASCII STL output of `save_triangles_as_stl`, as a deep
embedding of its structure (the writer emits fixed text for every line except
the three vertex lines, whose numeric payload is carried by `vertex`). -/
inductive StlLine where
  | solidHeader
  | facetNormalZero
  | outerLoop
  | vertex (vx vy vz : ℚ)
  | endLoop
  | endFacet
  | endSolid
deriving DecidableEq

/-- The facet loop of `save_triangles_as_stl` over `triangles.chunks(9)`:
each full chunk contributes a facet block reading the chunk at positions
`0`–`8`; a trailing chunk of fewer than nine values makes the source's
`chunk[k]` indexing panic, modelled as `none`. -/
def stlFacets : List ℚ → Option (List StlLine)
  | [] => some []
  | c0 :: c1 :: c2 :: c3 :: c4 :: c5 :: c6 :: c7 :: c8 :: rest =>
      (stlFacets rest).map (fun ls =>
        StlLine.facetNormalZero :: StlLine.outerLoop ::
        StlLine.vertex c0 c1 c2 :: StlLine.vertex c3 c4 c5 :: StlLine.vertex c6 c7 c8 ::
        StlLine.endLoop :: StlLine.endFacet :: ls)
  | _ => none

/-- `save_triangles_as_stl`, modelled as the list of lines it writes: a
`solid` header, the facet blocks, and an `endsolid` footer; `none` when the
chunk indexing of the facet loop panics. -/
def save_triangles_as_stl (ts : List ℚ) : Option (List StlLine) :=
  (stlFacets ts).map (fun body => StlLine.solidHeader :: (body ++ [StlLine.endSolid]))

/-! ## Spec-side definitions

The following definitions transcribe the specification's wording (spec.md §4.2
ScalarField and §4.4 TriangleSoupWriter, and the claims' phrasings), to be
compared against the source-side definitions above. -/

/-- Spec-side: per-axis grid step `step = (max - min) / resolution`. -/
def specStep (f : MeshDistanceField) : ℚ × ℚ × ℚ :=
  ((f.max.1 - f.min.1) / (f.resolution : ℚ),
   (f.max.2.1 - f.min.2.1) / (f.resolution : ℚ),
   (f.max.2.2 - f.min.2.2) / (f.resolution : ℚ))

/-- Spec-side: world coordinate of a grid index, `world = min + index * step`. -/
def specWorld (f : MeshDistanceField) (x y n : ℕ) : ℚ × ℚ × ℚ :=
  (f.min.1 + (x : ℚ) * (specStep f).1,
   f.min.2.1 + (y : ℚ) * (specStep f).2.1,
   f.min.2.2 + (n : ℚ) * (specStep f).2.2)

/-- Spec-side: squared Euclidean distance between two 3D points. -/
def sqDist (p w : ℚ × ℚ × ℚ) : ℚ :=
  (p.1 - w.1) ^ 2 + (p.2.1 - w.2.1) ^ 2 + (p.2.2 - w.2.2) ^ 2

/-- Spec-side: the subsampled cloud — the points whose first scalar sits at
every 30th index of the flat buffer, starting at index 0. -/
def subsampledCloud (ps : List ℚ) : List (ℚ × ℚ × ℚ) :=
  (MeshDistanceField.sampleIndices ps).map
    (fun i => (ps.getD i 0, ps.getD (i + 1) 0, ps.getD (i + 2) 0))

/-- Spec-side: the minimum squared distance from a world point to the
subsampled cloud, `f32::MAX` when the cloud is empty. -/
def specMinDistSq (ps : List ℚ) (w : ℚ × ℚ × ℚ) : ℚ :=
  ((subsampledCloud ps).map (fun p => sqDist p w)).foldr min f32MAX

/-- Spec-side: the influence radius `3 × step_x`. -/
def influenceRadius (f : MeshDistanceField) : ℚ := 3 * (specStep f).1

/-- Spec-side density: `1.0` when the minimum squared distance is strictly
below the squared influence radius, else `0.0`. -/
def densitySpec (f : MeshDistanceField) (x y n : ℕ) : ℚ :=
  if specMinDistSq f.positions (specWorld f x y n) < influenceRadius f ^ 2 then 1 else 0

/-- Spec-side: the buffer split into consecutive groups of nine values. -/
def chunks9 (ts : List ℚ) : List (List ℚ) :=
  if h : ts = [] then [] else ts.take 9 :: chunks9 (ts.drop 9)
termination_by ts.length
decreasing_by
  simp only [List.length_drop]
  have : 0 < ts.length := List.length_pos.mpr h
  omega

/-- Spec-side: the facet block of one 9-value group — a `facet normal 0 0 0`
line, `outer loop`, three vertex lines carrying the nine values in order,
`endloop`, `endfacet`. -/
def specFacetBlock (g : List ℚ) : List StlLine :=
  [StlLine.facetNormalZero, StlLine.outerLoop,
   StlLine.vertex (g.getD 0 0) (g.getD 1 0) (g.getD 2 0),
   StlLine.vertex (g.getD 3 0) (g.getD 4 0) (g.getD 5 0),
   StlLine.vertex (g.getD 6 0) (g.getD 7 0) (g.getD 8 0),
   StlLine.endLoop, StlLine.endFacet]

/-- Spec-side: the whole STL line list — header, per-group facet blocks in
order, footer. -/
def specStlLines (ts : List ℚ) : List StlLine :=
  StlLine.solidHeader :: ((chunks9 ts).flatMap specFacetBlock ++ [StlLine.endSolid])

/-! ## Helper lemmas -/

/-- The replace-if-smaller fold of the source is a fold of `min` over the
mapped distances. -/
lemma foldl_if_eq_foldr_min (l : List ℕ) (d : ℕ → ℚ) (a : ℚ) :
    l.foldl (fun m i => if d i < m then d i else m) a = (l.map d).foldr min a := by
  rw [← List.foldl_eq_foldr, List.foldl_map]
  apply List.foldl_ext
  intro m i _
  rcases lt_or_ge (d i) m with h | h
  · rw [if_pos h, min_eq_right h.le]
  · rw [if_neg (not_lt.mpr h), min_eq_left h]

/-- The running minimum of the source equals the spec-side minimum squared
distance to the subsampled cloud. -/
lemma minDistSq_eq_specMinDistSq (ps : List ℚ) (wx wy wz : ℚ) :
    MeshDistanceField.minDistSq ps wx wy wz = specMinDistSq ps (wx, wy, wz) := by
  unfold MeshDistanceField.minDistSq specMinDistSq subsampledCloud
  rw [foldl_if_eq_foldr_min, List.map_map]
  rfl

/-- The fold of `get_bounds` only ever lowers the running minimum corner and
raises the running maximum corner. -/
lemma foldBounds_mono (ps : List ℚ) (mn mx : ℚ × ℚ × ℚ) :
    (foldBounds ps mn mx).1.1 ≤ mn.1 ∧ (foldBounds ps mn mx).1.2.1 ≤ mn.2.1 ∧
    (foldBounds ps mn mx).1.2.2 ≤ mn.2.2 ∧ mx.1 ≤ (foldBounds ps mn mx).2.1 ∧
    mx.2.1 ≤ (foldBounds ps mn mx).2.2.1 ∧ mx.2.2 ≤ (foldBounds ps mn mx).2.2.2 := by
  induction ps, mn, mx using foldBounds.induct with
  | case1 px py pz rest mn mx ih =>
    rw [foldBounds]
    obtain ⟨i1, i2, i3, i4, i5, i6⟩ := ih
    refine ⟨i1.trans ?_, i2.trans ?_, i3.trans ?_,
      le_trans ?_ i4, le_trans ?_ i5, le_trans ?_ i6⟩
    · show (if px < mn.1 then px else mn.1) ≤ mn.1
      split_ifs with h <;> linarith
    · show (if py < mn.2.1 then py else mn.2.1) ≤ mn.2.1
      split_ifs with h <;> linarith
    · show (if pz < mn.2.2 then pz else mn.2.2) ≤ mn.2.2
      split_ifs with h <;> linarith
    · show mx.1 ≤ (if px > mx.1 then px else mx.1)
      split_ifs with h <;> linarith
    · show mx.2.1 ≤ (if py > mx.2.1 then py else mx.2.1)
      split_ifs with h <;> linarith
    · show mx.2.2 ≤ (if pz > mx.2.2 then pz else mx.2.2)
      split_ifs with h <;> linarith
  | case2 ps mn mx h => simp [foldBounds]

/-- Every point of the buffer (read as a scalar triple at index `3j`) is
bounded by the corners the fold of `get_bounds` returns. -/
lemma foldBounds_le_point (ps : List ℚ) (mn mx : ℚ × ℚ × ℚ) :
    ∀ j : ℕ, 3 * j + 2 < ps.length →
    (foldBounds ps mn mx).1.1 ≤ ps.getD (3 * j) 0 ∧
    ps.getD (3 * j) 0 ≤ (foldBounds ps mn mx).2.1 ∧
    (foldBounds ps mn mx).1.2.1 ≤ ps.getD (3 * j + 1) 0 ∧
    ps.getD (3 * j + 1) 0 ≤ (foldBounds ps mn mx).2.2.1 ∧
    (foldBounds ps mn mx).1.2.2 ≤ ps.getD (3 * j + 2) 0 ∧
    ps.getD (3 * j + 2) 0 ≤ (foldBounds ps mn mx).2.2.2 := by
  induction ps, mn, mx using foldBounds.induct with
  | case1 px py pz rest mn mx ih =>
    intro j hj
    match j with
    | 0 =>
      rw [foldBounds]
      obtain ⟨m1, m2, m3, m4, m5, m6⟩ := foldBounds_mono rest
        (if px < mn.1 then px else mn.1,
         if py < mn.2.1 then py else mn.2.1,
         if pz < mn.2.2 then pz else mn.2.2)
        (if px > mx.1 then px else mx.1,
         if py > mx.2.1 then py else mx.2.1,
         if pz > mx.2.2 then pz else mx.2.2)
      have g0 : (px :: py :: pz :: rest).getD (3 * 0) 0 = px := rfl
      have g1 : (px :: py :: pz :: rest).getD (3 * 0 + 1) 0 = py := rfl
      have g2 : (px :: py :: pz :: rest).getD (3 * 0 + 2) 0 = pz := rfl
      rw [g0, g1, g2]
      refine ⟨m1.trans ?_, le_trans ?_ m4, m2.trans ?_, le_trans ?_ m5,
        m3.trans ?_, le_trans ?_ m6⟩
      · show (if px < mn.1 then px else mn.1) ≤ px
        split_ifs with h <;> linarith
      · show px ≤ (if px > mx.1 then px else mx.1)
        split_ifs with h <;> linarith
      · show (if py < mn.2.1 then py else mn.2.1) ≤ py
        split_ifs with h <;> linarith
      · show py ≤ (if py > mx.2.1 then py else mx.2.1)
        split_ifs with h <;> linarith
      · show (if pz < mn.2.2 then pz else mn.2.2) ≤ pz
        split_ifs with h <;> linarith
      · show pz ≤ (if pz > mx.2.2 then pz else mx.2.2)
        split_ifs with h <;> linarith
    | k + 1 =>
      have hr : 3 * k + 2 < rest.length := by
        simp only [List.length_cons] at hj; omega
      have e0 : (px :: py :: pz :: rest).getD (3 * (k + 1)) 0 = rest.getD (3 * k) 0 := by
        have e : 3 * (k + 1) = 3 * k + 1 + 1 + 1 := by ring
        rw [e, List.getD_cons_succ, List.getD_cons_succ, List.getD_cons_succ]
      have e1 : (px :: py :: pz :: rest).getD (3 * (k + 1) + 1) 0 = rest.getD (3 * k + 1) 0 := by
        have e : 3 * (k + 1) + 1 = 3 * k + 1 + 1 + 1 + 1 := by ring
        rw [e, List.getD_cons_succ, List.getD_cons_succ, List.getD_cons_succ]
      have e2 : (px :: py :: pz :: rest).getD (3 * (k + 1) + 2) 0 = rest.getD (3 * k + 2) 0 := by
        have e : 3 * (k + 1) + 2 = 3 * k + 2 + 1 + 1 + 1 := by ring
        rw [e, List.getD_cons_succ, List.getD_cons_succ, List.getD_cons_succ]
      rw [foldBounds, e0, e1, e2]
      exact ih k hr
  | case2 ps mn mx h =>
    intro j hj
    exfalso
    match ps, hj, h with
    | [], hj, _ => simp only [List.length_nil] at hj; omega
    | [a], hj, _ => simp only [List.length_cons, List.length_nil] at hj; omega
    | [a, b], hj, _ => simp only [List.length_cons, List.length_nil] at hj; omega
    | a :: b :: c :: rest, hj, h => exact h a b c rest rfl

/-! ## Claims -/

/-- C1: for every configuration and grid index, `MeshDistanceField::z` follows
the spec's algorithm — per-axis step `(max - min) / resolution`, world
coordinate `min + index * step`, minimum squared Euclidean distance to the
stride-30 subsample of the flat buffer, and the strict threshold test against
`(3 * step_x)²` — and its result is exactly `0.0` or `1.0`. -/
theorem z_follows_spec_algorithm (f : MeshDistanceField) (x y n : ℕ)
    (h3 : 3 ∣ f.positions.length) (hres : 0 < f.resolution) :
    f.z x y n = densitySpec f x y n ∧ (f.z x y n = 0 ∨ f.z x y n = 1) := by
  constructor
  · unfold MeshDistanceField.z densitySpec
    rw [minDistSq_eq_specMinDistSq]
    have ht : MeshDistanceField.threshold f = influenceRadius f ^ 2 := by
      unfold MeshDistanceField.threshold influenceRadius MeshDistanceField.stepX specStep
      ring
    rw [ht]
    rfl
  · unfold MeshDistanceField.z
    split <;> simp

/-- Witness for C1 at a concrete one-point buffer and grid origin. -/
theorem z_follows_spec_algorithm_witness :
    3 ∣ (MeshDistanceField.mk [1, 0, 0] (0, 0, 0) (1, 1, 1) 2).positions.length ∧
    0 < (MeshDistanceField.mk [1, 0, 0] (0, 0, 0) (1, 1, 1) 2).resolution ∧
    ((MeshDistanceField.mk [1, 0, 0] (0, 0, 0) (1, 1, 1) 2).z 0 0 0 =
        densitySpec (MeshDistanceField.mk [1, 0, 0] (0, 0, 0) (1, 1, 1) 2) 0 0 0 ∧
      ((MeshDistanceField.mk [1, 0, 0] (0, 0, 0) (1, 1, 1) 2).z 0 0 0 = 0 ∨
        (MeshDistanceField.mk [1, 0, 0] (0, 0, 0) (1, 1, 1) 2).z 0 0 0 = 1)) ∧
    (MeshDistanceField.mk [1, 0, 0] (0, 0, 0) (1, 1, 1) 2).z 0 0 0 = 1 :=
  ⟨by decide, by decide,
   z_follows_spec_algorithm _ 0 0 0 (by decide) (by decide),
   by
    have hsi : MeshDistanceField.sampleIndices [(1 : ℚ), 0, 0] = [0] := by decide
    norm_num [MeshDistanceField.z, MeshDistanceField.minDistSq, hsi,
      MeshDistanceField.distSqAt, MeshDistanceField.worldX, MeshDistanceField.worldY,
      MeshDistanceField.worldZ, MeshDistanceField.stepX, MeshDistanceField.stepY,
      MeshDistanceField.stepZ, MeshDistanceField.threshold, f32MAX, List.getD]⟩

/-- C2: for a non-empty buffer of length divisible by 3, every input point
(the scalar triple at index `3j`) lies within the pre-padding bounds of
`get_bounds`; stated on the returned padded corners as
`min + padding ≤ p ≤ max - padding` componentwise. -/
theorem get_bounds_contains_points (ps : List ℚ) (hne : ps ≠ []) (h3 : 3 ∣ ps.length)
    (j : ℕ) (hj : 3 * j + 2 < ps.length) :
    (get_bounds ps).1.1 + padding ≤ ps.getD (3 * j) 0 ∧
    ps.getD (3 * j) 0 ≤ (get_bounds ps).2.1 - padding ∧
    (get_bounds ps).1.2.1 + padding ≤ ps.getD (3 * j + 1) 0 ∧
    ps.getD (3 * j + 1) 0 ≤ (get_bounds ps).2.2.1 - padding ∧
    (get_bounds ps).1.2.2 + padding ≤ ps.getD (3 * j + 2) 0 ∧
    ps.getD (3 * j + 2) 0 ≤ (get_bounds ps).2.2.2 - padding := by
  obtain ⟨p1, p2, p3, p4, p5, p6⟩ :=
    foldBounds_le_point ps (f32MAX, f32MAX, f32MAX) (-f32MAX, -f32MAX, -f32MAX) j hj
  unfold get_bounds
  dsimp only
  refine ⟨by linarith, by linarith, by linarith, by linarith, by linarith, by linarith⟩

/-- Witness for C2 at the concrete buffer `[1, 2, 3]` and point index `0`. -/
theorem get_bounds_contains_points_witness :
    ([(1 : ℚ), 2, 3] ≠ []) ∧ 3 ∣ ([(1 : ℚ), 2, 3]).length ∧ 3 * 0 + 2 < ([(1 : ℚ), 2, 3]).length ∧
    (get_bounds [1, 2, 3]).1.1 + padding ≤ ([(1 : ℚ), 2, 3]).getD (3 * 0) 0 ∧
    ([(1 : ℚ), 2, 3]).getD (3 * 0) 0 ≤ (get_bounds [1, 2, 3]).2.1 - padding :=
  ⟨by decide, by decide, by decide,
   (get_bounds_contains_points [1, 2, 3] (by decide) (by decide) 0 (by decide)).1,
   (get_bounds_contains_points [1, 2, 3] (by decide) (by decide) 0 (by decide)).2.1⟩

/-- C3: for a non-empty buffer of length divisible by 3, the padded bounds of
`get_bounds` leave a span of at least `2 × padding` on every axis, hence
`min ≤ max` componentwise. -/
theorem get_bounds_padded_span (ps : List ℚ) (hne : ps ≠ []) (h3 : 3 ∣ ps.length) :
    (2 * padding ≤ (get_bounds ps).2.1 - (get_bounds ps).1.1 ∧
     2 * padding ≤ (get_bounds ps).2.2.1 - (get_bounds ps).1.2.1 ∧
     2 * padding ≤ (get_bounds ps).2.2.2 - (get_bounds ps).1.2.2) ∧
    ((get_bounds ps).1.1 ≤ (get_bounds ps).2.1 ∧
     (get_bounds ps).1.2.1 ≤ (get_bounds ps).2.2.1 ∧
     (get_bounds ps).1.2.2 ≤ (get_bounds ps).2.2.2) := by
  have hlen : 3 ≤ ps.length := by
    have h0 : ps.length ≠ 0 := fun h0 => hne (List.length_eq_zero.mp h0)
    rcases h3 with ⟨c, hc⟩
    omega
  have hj : 3 * 0 + 2 < ps.length := by omega
  obtain ⟨p1, p2, p3, p4, p5, p6⟩ :=
    foldBounds_le_point ps (f32MAX, f32MAX, f32MAX) (-f32MAX, -f32MAX, -f32MAX) 0 hj
  have hpad : (0 : ℚ) < padding := by unfold padding; norm_num
  unfold get_bounds
  dsimp only
  refine ⟨⟨by linarith, by linarith, by linarith⟩, by linarith, by linarith, by linarith⟩

/-- Witness for C3 at the concrete single-point buffer `[1, 2, 3]`. -/
theorem get_bounds_padded_span_witness :
    ([(1 : ℚ), 2, 3] ≠ []) ∧ 3 ∣ ([(1 : ℚ), 2, 3]).length ∧
    2 * padding ≤ (get_bounds [1, 2, 3]).2.1 - (get_bounds [1, 2, 3]).1.1 :=
  ⟨by decide, by decide, (get_bounds_padded_span [1, 2, 3] (by decide) (by decide)).1.1⟩

/-- C4 counterexample: on the empty buffer `get_bounds` does not fail; it
returns the padded sentinel corners `f32::MAX - 0.2` / `f32::MIN + 0.2`, an
inverted box with `max < min` on every axis. -/
theorem get_bounds_empty_returns_sentinels :
    (get_bounds []).1.1 = f32MAX - padding ∧ (get_bounds []).2.1 = -f32MAX + padding ∧
    (get_bounds []).2.1 < (get_bounds []).1.1 := by
  refine ⟨rfl, rfl, ?_⟩
  show -f32MAX + padding < f32MAX - padding
  unfold f32MAX padding
  norm_num

/-- C4 amended: on the empty buffer `get_bounds` returns (rather than failing
with an error) the sentinel corners obtained by padding the untouched
accumulators: `min = (f32::MAX - 0.2, …)` and `max = (f32::MIN + 0.2, …)`. -/
theorem get_bounds_empty_value :
    get_bounds [] =
      ((f32MAX - padding, f32MAX - padding, f32MAX - padding),
       (-f32MAX + padding, -f32MAX + padding, -f32MAX + padding)) := rfl

/-- C5 counterexample: with an empty point buffer and the bounds that
`get_bounds` itself produces for that buffer, the density `z` is `1.0` at the
grid origin, not `0.0`: the inverted sentinel box makes `(3 * step_x)²`
exceed `f32::MAX`, so the untouched running minimum passes the strict test. -/
theorem z_empty_counterexample :
    (MeshDistanceField.mk [] (get_bounds []).1 (get_bounds []).2 50).z 0 0 0 = 1 := by
  have hb : get_bounds [] =
      ((f32MAX - padding, f32MAX - padding, f32MAX - padding),
       (-f32MAX + padding, -f32MAX + padding, -f32MAX + padding)) := rfl
  have hsi : MeshDistanceField.sampleIndices ([] : List ℚ) = [] := rfl
  norm_num [hb, MeshDistanceField.z, MeshDistanceField.minDistSq, hsi,
    MeshDistanceField.worldX, MeshDistanceField.worldY, MeshDistanceField.worldZ,
    MeshDistanceField.stepX, MeshDistanceField.stepY, MeshDistanceField.stepZ,
    MeshDistanceField.threshold, f32MAX, padding]

/-- C5 amended: with an empty point buffer `z` performs no buffer access, the
running minimum stays at `f32::MAX`, and the field is uniform: `0.0` at every
grid index when the threshold `(3 * step_x)²` is at most `f32::MAX`, but `1.0`
at every grid index when the threshold exceeds `f32::MAX` (as happens with the
bounds `get_bounds` produces for the empty buffer). -/
theorem z_empty_uniform (f : MeshDistanceField) (x y n : ℕ) (hps : f.positions = []) :
    (MeshDistanceField.threshold f ≤ f32MAX → f.z x y n = 0) ∧
    (f32MAX < MeshDistanceField.threshold f → f.z x y n = 1) := by
  unfold MeshDistanceField.z MeshDistanceField.minDistSq
  rw [hps]
  have hsi : MeshDistanceField.sampleIndices ([] : List ℚ) = [] := rfl
  rw [hsi]
  simp only [List.foldl_nil]
  constructor
  · intro h
    rw [if_neg (not_lt.mpr h)]
  · intro h
    rw [if_pos h]

/-- Witness for the amended C5 at a concrete empty-buffer field whose
threshold is small, where the density is `0`. -/
theorem z_empty_uniform_witness :
    (MeshDistanceField.mk [] (0, 0, 0) (1, 1, 1) 1).positions = [] ∧
    MeshDistanceField.threshold (MeshDistanceField.mk [] (0, 0, 0) (1, 1, 1) 1) ≤ f32MAX ∧
    (MeshDistanceField.mk [] (0, 0, 0) (1, 1, 1) 1).z 0 0 0 = 0 :=
  ⟨rfl,
   by norm_num [MeshDistanceField.threshold, MeshDistanceField.stepX, f32MAX],
   (z_empty_uniform _ 0 0 0 rfl).1
     (by norm_num [MeshDistanceField.threshold, MeshDistanceField.stepX, f32MAX])⟩

/-- C6: noninterference of the subsampling stride — `z` depends only on the
scalars at offsets `i, i+1, i+2` for `i` a multiple of 30 below the buffer
length; two fields with the same bounds, resolution and buffer length that
agree on all offsets `j` with `j % 30 ≤ 2` have identical densities at every
grid index, so modifying only discarded points never changes the output. -/
theorem z_stride_noninterference (f g : MeshDistanceField) (x y n : ℕ)
    (hmin : f.min = g.min) (hmax : f.max = g.max) (hres : f.resolution = g.resolution)
    (hlen : f.positions.length = g.positions.length)
    (hagree : ∀ j, j < f.positions.length → j % 30 ≤ 2 →
      f.positions.getD j 0 = g.positions.getD j 0) :
    f.z x y n = g.z x y n := by
  have hsx : MeshDistanceField.stepX f = MeshDistanceField.stepX g := by
    unfold MeshDistanceField.stepX
    rw [hmin, hmax, hres]
  have hsy : MeshDistanceField.stepY f = MeshDistanceField.stepY g := by
    unfold MeshDistanceField.stepY
    rw [hmin, hmax, hres]
  have hsz : MeshDistanceField.stepZ f = MeshDistanceField.stepZ g := by
    unfold MeshDistanceField.stepZ
    rw [hmin, hmax, hres]
  have hwx : MeshDistanceField.worldX f x = MeshDistanceField.worldX g x := by
    unfold MeshDistanceField.worldX
    rw [hmin, hsx]
  have hwy : MeshDistanceField.worldY f y = MeshDistanceField.worldY g y := by
    unfold MeshDistanceField.worldY
    rw [hmin, hsy]
  have hwz : MeshDistanceField.worldZ f n = MeshDistanceField.worldZ g n := by
    unfold MeshDistanceField.worldZ
    rw [hmin, hsz]
  have hth : MeshDistanceField.threshold f = MeshDistanceField.threshold g := by
    unfold MeshDistanceField.threshold
    rw [hsx]
  have hsi : MeshDistanceField.sampleIndices f.positions =
      MeshDistanceField.sampleIndices g.positions := by
    unfold MeshDistanceField.sampleIndices
    rw [hlen]
  have hmd : MeshDistanceField.minDistSq f.positions (MeshDistanceField.worldX f x)
      (MeshDistanceField.worldY f y) (MeshDistanceField.worldZ f n) =
      MeshDistanceField.minDistSq g.positions (MeshDistanceField.worldX g x)
      (MeshDistanceField.worldY g y) (MeshDistanceField.worldZ g n) := by
    unfold MeshDistanceField.minDistSq
    rw [hwx, hwy, hwz, hsi]
    apply List.foldl_ext
    intro m i hi
    have hi' : i < g.positions.length ∧ (i % 30 == 0) = true := by
      unfold MeshDistanceField.sampleIndices at hi
      rw [List.mem_filter, List.mem_range] at hi
      exact hi
    obtain ⟨hilt, him⟩ := hi'
    have him' : i % 30 = 0 := by simpa using him
    have hd : MeshDistanceField.distSqAt f.positions (MeshDistanceField.worldX g x)
        (MeshDistanceField.worldY g y) (MeshDistanceField.worldZ g n) i =
        MeshDistanceField.distSqAt g.positions (MeshDistanceField.worldX g x)
        (MeshDistanceField.worldY g y) (MeshDistanceField.worldZ g n) i := by
      unfold MeshDistanceField.distSqAt
      have g0 : f.positions.getD i 0 = g.positions.getD i 0 :=
        hagree i (hlen ▸ hilt) (by omega)
      have g1 : f.positions.getD (i + 1) 0 = g.positions.getD (i + 1) 0 := by
        rcases lt_or_ge (i + 1) f.positions.length with hlt | hge
        · exact hagree (i + 1) hlt (by omega)
        · rw [List.getD_eq_default _ _ hge, List.getD_eq_default _ _ (hlen ▸ hge)]
      have g2 : f.positions.getD (i + 2) 0 = g.positions.getD (i + 2) 0 := by
        rcases lt_or_ge (i + 2) f.positions.length with hlt | hge
        · exact hagree (i + 2) hlt (by omega)
        · rw [List.getD_eq_default _ _ hge, List.getD_eq_default _ _ (hlen ▸ hge)]
      rw [g0, g1, g2]
    rw [hd]
  unfold MeshDistanceField.z
  rw [hmd, hth]

/-- Witness for C6: two six-scalar buffers that differ only in their second
point (first scalar index 3, not a multiple of 30) get identical densities. -/
theorem z_stride_noninterference_witness :
    ([(0 : ℚ), 0, 0, 1, 2, 3]).getD 3 0 ≠ ([(0 : ℚ), 0, 0, 9, 9, 9]).getD 3 0 ∧
    (MeshDistanceField.mk [0, 0, 0, 1, 2, 3] (0, 0, 0) (1, 1, 1) 4).z 0 0 0 =
      (MeshDistanceField.mk [0, 0, 0, 9, 9, 9] (0, 0, 0) (1, 1, 1) 4).z 0 0 0 :=
  ⟨by norm_num [List.getD],
   z_stride_noninterference _ _ 0 0 0 rfl rfl rfl rfl (by
    intro j hj hm
    have hj6 : j < 6 := hj
    have hj2 : j ≤ 2 := by omega
    match j, hj2 with
    | 0, _ => rfl
    | 1, _ => rfl
    | 2, _ => rfl)⟩

/-- C7: `z` is a pure deterministic function of the field's configuration —
two fields with equal positions, bounds and resolution have identical
densities at every grid index, and any engine consuming the density function
produces an identical triangle list for both. -/
theorem z_pure_deterministic (f g : MeshDistanceField)
    (hps : f.positions = g.positions) (hmin : f.min = g.min) (hmax : f.max = g.max)
    (hres : f.resolution = g.resolution) :
    (∀ x y n, f.z x y n = g.z x y n) ∧
    ∀ engine : (ℕ → ℕ → ℕ → ℚ) → List ℚ, engine f.z = engine g.z := by
  obtain ⟨ps, mn, mx, r⟩ := f
  obtain ⟨ps', mn', mx', r'⟩ := g
  cases hps
  cases hmin
  cases hmax
  cases hres
  exact ⟨fun x y n => rfl, fun engine => rfl⟩

/-- Witness for C7 at a concrete field configuration. -/
theorem z_pure_deterministic_witness :
    (MeshDistanceField.mk [1, 2, 3] (0, 0, 0) (1, 1, 1) 2).z 1 1 1 =
      (MeshDistanceField.mk [1, 2, 3] (0, 0, 0) (1, 1, 1) 2).z 1 1 1 :=
  (z_pure_deterministic _ _ rfl rfl rfl rfl).1 1 1 1

/-- The facet loop agrees with the spec-side chunked facet blocks whenever the
buffer length is a multiple of nine. -/
lemma stlFacets_eq_spec (ts : List ℚ) (h9 : 9 ∣ ts.length) :
    stlFacets ts = some ((chunks9 ts).flatMap specFacetBlock) := by
  induction ts using stlFacets.induct with
  | case1 =>
    rw [stlFacets, chunks9]
    simp
  | case2 c0 c1 c2 c3 c4 c5 c6 c7 c8 rest ih =>
    have h9' : 9 ∣ rest.length := by
      simp only [List.length_cons] at h9
      omega
    have hc : chunks9 (c0 :: c1 :: c2 :: c3 :: c4 :: c5 :: c6 :: c7 :: c8 :: rest) =
        [c0, c1, c2, c3, c4, c5, c6, c7, c8] ::
          chunks9 rest := by
      rw [chunks9, dif_neg (List.cons_ne_nil _ _)]
      rfl
    rw [stlFacets, ih h9', hc, List.flatMap_cons]
    rfl
  | case3 ts h1 h2 =>
    exfalso
    match ts, h9, h1, h2 with
    | [], h9, h1, _ => exact h1 rfl
    | [a], h9, _, _ => simp only [List.length_cons, List.length_nil] at h9; omega
    | [a, b], h9, _, _ => simp only [List.length_cons, List.length_nil] at h9; omega
    | [a, b, c], h9, _, _ => simp only [List.length_cons, List.length_nil] at h9; omega
    | [a, b, c, d], h9, _, _ => simp only [List.length_cons, List.length_nil] at h9; omega
    | [a, b, c, d, e], h9, _, _ =>
      simp only [List.length_cons, List.length_nil] at h9; omega
    | [a, b, c, d, e, f], h9, _, _ =>
      simp only [List.length_cons, List.length_nil] at h9; omega
    | [a, b, c, d, e, f, g], h9, _, _ =>
      simp only [List.length_cons, List.length_nil] at h9; omega
    | [a, b, c, d, e, f, g, h], h9, _, _ =>
      simp only [List.length_cons, List.length_nil] at h9; omega
    | a :: b :: c :: d :: e :: f :: g :: h :: i :: rest, _, _, h2 =>
      exact h2 a b c d e f g h i rest rfl

/-- C8: for a triangle buffer whose length is a multiple of nine, the STL
writer emits exactly one solid header line, then per 9-value group one
`facet normal 0 0 0` line, one `outer loop` line, three vertex lines carrying
the nine values in order, one `endloop` and one `endfacet` line, and finally
one `endsolid` footer line. -/
theorem save_triangles_as_stl_format (ts : List ℚ) (h9 : 9 ∣ ts.length) :
    save_triangles_as_stl ts = some (specStlLines ts) := by
  unfold save_triangles_as_stl specStlLines
  rw [stlFacets_eq_spec ts h9]
  rfl

/-- Witness for C8 at one concrete triangle, with the emitted lines written
out explicitly. -/
theorem save_triangles_as_stl_format_witness :
    9 ∣ ([(0 : ℚ), 1, 2, 3, 4, 5, 6, 7, 8]).length ∧
    save_triangles_as_stl [(0 : ℚ), 1, 2, 3, 4, 5, 6, 7, 8] =
      some (specStlLines [(0 : ℚ), 1, 2, 3, 4, 5, 6, 7, 8]) ∧
    save_triangles_as_stl [(0 : ℚ), 1, 2, 3, 4, 5, 6, 7, 8] =
      some [StlLine.solidHeader, StlLine.facetNormalZero, StlLine.outerLoop,
        StlLine.vertex 0 1 2, StlLine.vertex 3 4 5, StlLine.vertex 6 7 8,
        StlLine.endLoop, StlLine.endFacet, StlLine.endSolid] :=
  ⟨by decide,
   save_triangles_as_stl_format [(0 : ℚ), 1, 2, 3, 4, 5, 6, 7, 8] (by decide),
   rfl⟩

/-- C9: the loop of `z` only reads in bounds when the buffer length is
divisible by 3 — every sampled index `i` (a multiple of 30 below the length)
has `i + 2` below the length — and the divisibility precondition is
necessary: on the length-1 buffer the sampled index `0` makes the read at
`i + 2` out of bounds. -/
theorem z_accesses_in_bounds :
    (∀ ps : List ℚ, 3 ∣ ps.length →
      ∀ i ∈ MeshDistanceField.sampleIndices ps, i + 2 < ps.length) ∧
    ∃ i ∈ MeshDistanceField.sampleIndices [(0 : ℚ)], ¬ i + 2 < ([(0 : ℚ)]).length := by
  constructor
  · intro ps h3 i hi
    have hi' : i < ps.length ∧ (i % 30 == 0) = true := by
      unfold MeshDistanceField.sampleIndices at hi
      rw [List.mem_filter, List.mem_range] at hi
      exact hi
    obtain ⟨hlt, hm⟩ := hi'
    have hm' : i % 30 = 0 := by simpa using hm
    obtain ⟨c, hc⟩ := h3
    omega
  · refine ⟨0, by decide, by decide⟩

/-- Witness for C9 at the concrete buffer `[0, 0, 0]` and sampled index `0`. -/
theorem z_accesses_in_bounds_witness :
    3 ∣ ([(0 : ℚ), 0, 0]).length ∧ 0 ∈ MeshDistanceField.sampleIndices [(0 : ℚ), 0, 0] ∧
    0 + 2 < ([(0 : ℚ), 0, 0]).length :=
  ⟨by decide, by decide, z_accesses_in_bounds.1 [0, 0, 0] (by decide) 0 (by decide)⟩

/-- The facet loop succeeds exactly when the buffer length is a multiple of
nine. -/
lemma stlFacets_isSome_iff (ts : List ℚ) :
    (stlFacets ts).isSome = true ↔ 9 ∣ ts.length := by
  induction ts using stlFacets.induct with
  | case1 => simp [stlFacets]
  | case2 c0 c1 c2 c3 c4 c5 c6 c7 c8 rest ih =>
    rw [stlFacets]
    simp only [Option.isSome_map', List.length_cons, ih]
    omega
  | case3 ts h1 h2 =>
    match ts, h1, h2 with
    | [], h1, _ => exact absurd rfl h1
    | [a], _, _ => simp [stlFacets.eq_def] <;> omega
    | [a, b], _, _ => simp [stlFacets.eq_def] <;> omega
    | [a, b, c], _, _ => simp [stlFacets.eq_def] <;> omega
    | [a, b, c, d], _, _ => simp [stlFacets.eq_def] <;> omega
    | [a, b, c, d, e], _, _ => simp [stlFacets.eq_def] <;> omega
    | [a, b, c, d, e, f], _, _ => simp [stlFacets.eq_def] <;> omega
    | [a, b, c, d, e, f, g], _, _ => simp [stlFacets.eq_def] <;> omega
    | [a, b, c, d, e, f, g, h], _, _ => simp [stlFacets.eq_def] <;> omega
    | a :: b :: c :: d :: e :: f :: g :: h :: i :: rest, _, h2 =>
      exact absurd rfl (h2 a b c d e f g h i rest)

/-- C10: the chunk indexing of `save_triangles_as_stl` stays in bounds
exactly when the buffer length is a multiple of nine: the writer succeeds iff
`9 ∣ length`, and on every positive non-multiple the indexing into the final
short chunk panics (modelled as `none`). -/
theorem save_accesses_in_bounds_iff (ts : List ℚ) :
    (save_triangles_as_stl ts).isSome = true ↔ 9 ∣ ts.length := by
  unfold save_triangles_as_stl
  rw [← stlFacets_isSome_iff]
  cases stlFacets ts <;> simp

end MeshAuditor
